import Mathlib

/- Verification development for the go-machine-learning repository.

   The repository consists of five small scripts: a linear-regression example
   over an advertising dataset, a logistic-regression loan classifier with a
   hand-written gradient-descent loop, a naive-Bayes loan classifier, and
   decision-tree and random-forest iris classifiers.  This file gives a
   shallow embedding of the data splitting, data cleaning, training and
   evaluation logic of those scripts and proves the specification claims
   about them.

   Modelling conventions: numeric values are rationals; the external
   strconv.ParseFloat is an abstract parameter pf : String -> Option Rat;
   a call to log.Fatal is modelled as Except.error (the process exits with
   a nonzero status after logging); normal completion is Except.ok. -/

namespace GoML

/-- CSV record: one list of field strings, as produced by encoding/csv. -/
abbrev Record := List String

/-- Model of Go math.Abs on rational values. -/
def mathAbs (x : ℚ) : ℚ := if x < 0 then -x else x

/-- Exit status of a modelled run: log.Fatal exits with status 1 after
logging its message, normal completion exits with status 0. -/
def exitCode {α : Type} : Except String α → ℕ
  | Except.error _ => 1
  | Except.ok _ => 0

/-- Parse function modelling a file whose relevant fields are all
unparsable: every ParseFloat call fails. -/
def pfNone : String → Option ℚ := fun _ => none

/-- Decidable equality of modelled run results, so that the embeddings can
be evaluated on concrete inputs. -/
instance {ε α : Type} [DecidableEq ε] [DecidableEq α] : DecidableEq (Except ε α) := fun a b =>
  match a, b with
  | Except.error e, Except.error f =>
    if h : e = f then Decidable.isTrue (by rw [h])
    else Decidable.isFalse (fun hc => h (by cases hc; rfl))
  | Except.error _, Except.ok _ => Decidable.isFalse (fun hc => Except.noConfusion hc)
  | Except.ok _, Except.error _ => Decidable.isFalse (fun hc => Except.noConfusion hc)
  | Except.ok u, Except.ok v =>
    if h : u = v then Decidable.isTrue (by rw [h])
    else Decidable.isFalse (fun hc => h (by cases hc; rfl))

/- Section: splitData

The linear-regression and logistic-regression scripts share the same
splitting code: trainingNum := (4 * Nrow) / 5, testNum := Nrow / 5, then
trainingNum is incremented when the two counts fall short of Nrow; the
training indices are 0 .. trainingNum - 1 and the test indices are
trainingNum .. trainingNum + testNum - 1, and DataFrame.Subset picks the
rows at those indices. -/

/-- trainingNum before the adjustment: (4 * advertDF.Nrow()) / 5 with Go
integer division. -/
def trainingNumRaw (n : ℕ) : ℕ := 4 * n / 5

/-- testNum := advertDF.Nrow() / 5. -/
def testNum (n : ℕ) : ℕ := n / 5

/-- trainingNum after the adjustment: incremented once when
trainingNum + testNum < Nrow. -/
def trainingNum (n : ℕ) : ℕ :=
  if trainingNumRaw n + testNum n < n then trainingNumRaw n + 1 else trainingNumRaw n

/-- Training indices: the loop sets trainingIdx[i] = i for i < trainingNum. -/
def trainingIdx (n : ℕ) : List ℕ := List.range (trainingNum n)

/-- Test indices: the loop sets testIdx[i] = trainingNum + i for i < testNum. -/
def testIdx (n : ℕ) : List ℕ := (List.range (testNum n)).map (fun i => trainingNum n + i)

/-- DataFrame.Subset: the rows of the frame at the given indices, in order. -/
def subsetRows {α : Type} (rows : List α) (idx : List ℕ) : List α :=
  idx.filterMap (fun i => rows.get? i)

/-- splitData builds the training and test frames from the input frame by
taking the subsets at the training and test indices. -/
def splitData {α : Type} (rows : List α) : List α × List α :=
  (subsetRows rows (trainingIdx rows.length), subsetRows rows (testIdx rows.length))

/-- splitData stage of a script, fed with the result of opening and reading
the input file; an open or read failure is log.Fatal. -/
def splitStage {α : Type} (readResult : Except String (List α)) :
    Except String (List α × List α) :=
  match readResult with
  | Except.error e => Except.error e
  | Except.ok rows => Except.ok (splitData rows)

/- Section: Linear-regression script: train

The train function reads the training CSV, skips the header record at index
0 and, for every other record, parses the Sales value from field 3 and the
TV value from field 0, calling log.Fatal on either parse failure, and feeds
the data point (y, tv) to r.Train. -/

/-- Parse of one training record of the linear-regression script: Sales from
field 3 first, then TV from field 0; either failure is log.Fatal. -/
def trainRecordLR (pf : String → Option ℚ) (record : Record) : Except String (ℚ × ℚ) :=
  match pf (record.getD 3 "") with
  | none => Except.error "ParseFloat Sales"
  | some y =>
    match pf (record.getD 0 "") with
    | none => Except.error "ParseFloat TV"
    | some tv => Except.ok (y, tv)

/-- The record loop of train, carrying the record index; the record at index
0 is skipped as the header. -/
def trainLoopLR (pf : String → Option ℚ) : ℕ → List Record → Except String (List (ℚ × ℚ))
  | _, [] => Except.ok []
  | i, r :: rs =>
    if i = 0 then trainLoopLR pf (i + 1) rs
    else
      match trainRecordLR pf r with
      | Except.error e => Except.error e
      | Except.ok p =>
        match trainLoopLR pf (i + 1) rs with
        | Except.error e => Except.error e
        | Except.ok ps => Except.ok (p :: ps)

/-- The data points that train hands to the regression library, starting the
loop at record index 0. -/
def trainDataPointsLR (pf : String → Option ℚ) (records : List Record) :
    Except String (List (ℚ × ℚ)) :=
  trainLoopLR pf 0 records

/-- Record processing with no header logic: every record yields one data
point or aborts the run.  Used to state which records contribute. -/
def trainRowsLR (pf : String → Option ℚ) : List Record → Except String (List (ℚ × ℚ))
  | [] => Except.ok []
  | r :: rs =>
    match trainRecordLR pf r with
    | Except.error e => Except.error e
    | Except.ok p =>
      match trainRowsLR pf rs with
      | Except.error e => Except.error e
      | Except.ok ps => Except.ok (p :: ps)

/-- The train stage fed with the result of opening and reading the training
CSV file. -/
def trainStageLR (pf : String → Option ℚ) (readResult : Except String (List Record)) :
    Except String (List (ℚ × ℚ)) :=
  match readResult with
  | Except.error e => Except.error e
  | Except.ok records => trainDataPointsLR pf records

/-- Decidable check that a record of the linear-regression train or test loop
parses: field 3 and field 0 both parse. -/
def recOkLR (pf : String → Option ℚ) (r : Record) : Bool :=
  (pf (r.getD 3 "")).isSome && (pf (r.getD 0 "")).isSome

/- Section: Linear-regression script: test (mean absolute error)

The test function reads the test CSV, skips the header record, parses the
observed Sales and the TV value of every other record with log.Fatal on
failure, predicts y with the trained model and accumulates
math.Abs(yObserved - yPredicted) / float64(len(testData)) into mAE; note
that len(testData) counts every CSV record of the file, the header row
included.  The trained model r.Predict is abstracted as predict. -/

/-- Parse of one test record: observed Sales from field 3 first, then TV
from field 0; either failure is log.Fatal. -/
def testRecordLR (pf : String → Option ℚ) (record : Record) : Except String (ℚ × ℚ) :=
  match pf (record.getD 3 "") with
  | none => Except.error "ParseFloat Sales"
  | some y =>
    match pf (record.getD 0 "") with
    | none => Except.error "ParseFloat TV"
    | some tv => Except.ok (y, tv)

/-- The record loop of test, with n the value of len(testData). -/
def testLoopLR (pf : String → Option ℚ) (predict : ℚ → ℚ) (n : ℕ) :
    ℕ → List Record → Except String ℚ
  | _, [] => Except.ok 0
  | i, r :: rs =>
    if i = 0 then testLoopLR pf predict n (i + 1) rs
    else
      match testRecordLR pf r with
      | Except.error e => Except.error e
      | Except.ok p =>
        match testLoopLR pf predict n (i + 1) rs with
        | Except.error e => Except.error e
        | Except.ok acc => Except.ok (mathAbs (p.1 - predict p.2) / (n : ℚ) + acc)

/-- The mAE value printed by test: the loop over all records with
n = len(testData), the record count of the whole file. -/
def maeLR (pf : String → Option ℚ) (predict : ℚ → ℚ) (records : List Record) :
    Except String ℚ :=
  testLoopLR pf predict records.length 0 records

/-- Test-record processing with no header logic, one error term per record,
each divided by n. -/
def maeRowsLR (pf : String → Option ℚ) (predict : ℚ → ℚ) (n : ℕ) :
    List Record → Except String ℚ
  | [] => Except.ok 0
  | r :: rs =>
    match testRecordLR pf r with
    | Except.error e => Except.error e
    | Except.ok p =>
      match maeRowsLR pf predict n rs with
      | Except.error e => Except.error e
      | Except.ok acc => Except.ok (mathAbs (p.1 - predict p.2) / (n : ℚ) + acc)

/-- All parsed (observed, tv) pairs of the data records, aborting on the
first failure. -/
def testRowsLR (pf : String → Option ℚ) : List Record → Except String (List (ℚ × ℚ))
  | [] => Except.ok []
  | r :: rs =>
    match testRecordLR pf r with
    | Except.error e => Except.error e
    | Except.ok p =>
      match testRowsLR pf rs with
      | Except.error e => Except.error e
      | Except.ok ps => Except.ok (p :: ps)

/-- Mean absolute error as the claim words it: the sum of the absolute
differences over the test data rows divided by the number of test data rows.
Stated from the claim for comparison against maeLR. -/
def maeClaimed (pf : String → Option ℚ) (predict : ℚ → ℚ) (records : List Record) :
    Except String ℚ :=
  match testRowsLR pf (records.drop 1) with
  | Except.error e => Except.error e
  | Except.ok pts =>
      Except.ok ((pts.map (fun p => mathAbs (p.1 - predict p.2))).sum / (pts.length : ℚ))

/-- Small concrete parse table used to evaluate the embeddings on concrete
inputs. -/
def pfEx : String → Option ℚ := fun s =>
  if s = "1" then some 1 else if s = "2" then some 2 else none

/- Section: Logistic-regression script: data cleaning (dataProfiling)

The cleaning loop writes the header record through unchanged and, for every
data record, parses the minimum of the FICO score range from field 0
(strings.Split(record[0], "-")[0]), normalizes it against the fixed bounds
scoreMin = 640 and scoreMax = 830, parses the interest rate from field 1
after trimming a percent suffix, and emits the label 1.0 when
rate <= 12.0 and 0.0 otherwise; any parse failure is log.Fatal.  We model
the cleaned record by its two numeric values; writing them out in 4-decimal
fixed form is external formatting. -/

/-- strings.Split(s, "-")[0]: the part of s before the first hyphen. -/
def minOfRange (s : String) : String :=
  String.mk (s.toList.takeWhile (fun c => c ≠ '-'))

/-- strings.TrimSuffix(s, "%"): s without a trailing percent sign. -/
def trimPercent (s : String) : String :=
  if s.toList.getLast? = some '%' then String.mk s.toList.dropLast else s

/-- Fixed upper normalization bound of the FICO score. -/
def scoreMax : ℚ := 830

/-- Fixed lower normalization bound of the FICO score. -/
def scoreMin : ℚ := 640

/-- The normalized score written by the cleaner:
(score - scoreMin) / (scoreMax - scoreMin). -/
def normalizeScore (score : ℚ) : ℚ := (score - scoreMin) / (scoreMax - scoreMin)

/-- The binary label written by the cleaner: 1.0 when rate <= 12.0, else
0.0. -/
def rateLabel (rate : ℚ) : ℚ := if rate ≤ 12 then 1 else 0

/-- Cleaning of one data record: parse the minimum of the score range from
field 0 and the trimmed rate from field 1, log.Fatal on either failure. -/
def cleanRecordVals (pf : String → Option ℚ) (record : Record) : Except String (ℚ × ℚ) :=
  match pf (minOfRange (record.getD 0 "")) with
  | none => Except.error "ParseFloat score"
  | some score =>
    match pf (trimPercent (record.getD 1 "")) with
    | none => Except.error "ParseFloat rate"
    | some rate => Except.ok (normalizeScore score, rateLabel rate)

/-- The cleaning loop over the raw records with their indices; the header at
index 0 is copied through to the output file unchanged. -/
def cleanLoop (pf : String → Option ℚ) : ℕ → List Record → Except String (List (ℚ × ℚ))
  | _, [] => Except.ok []
  | i, r :: rs =>
    if i = 0 then cleanLoop pf (i + 1) rs
    else
      match cleanRecordVals pf r with
      | Except.error e => Except.error e
      | Except.ok v =>
        match cleanLoop pf (i + 1) rs with
        | Except.error e => Except.error e
        | Except.ok vs => Except.ok (v :: vs)

/-- The cleaned data rows produced by dataProfiling, starting at index 0. -/
def cleanRows (pf : String → Option ℚ) (records : List Record) : Except String (List (ℚ × ℚ)) :=
  cleanLoop pf 0 records

/-- Cleaning with no header logic, used to state which records contribute. -/
def cleanRowsAll (pf : String → Option ℚ) : List Record → Except String (List (ℚ × ℚ))
  | [] => Except.ok []
  | r :: rs =>
    match cleanRecordVals pf r with
    | Except.error e => Except.error e
    | Except.ok v =>
      match cleanRowsAll pf rs with
      | Except.error e => Except.error e
      | Except.ok vs => Except.ok (v :: vs)

/-- The cleaning stage fed with the result of opening and reading the raw
loan CSV file. -/
def cleanStage (pf : String → Option ℚ) (readResult : Except String (List Record)) :
    Except String (List (ℚ × ℚ)) :=
  match readResult with
  | Except.error e => Except.error e
  | Except.ok records => cleanRows pf records

/-- Decidable check that one raw record cleans: both of its fields parse. -/
def cleanRecOk (pf : String → Option ℚ) (r : Record) : Bool :=
  (pf (minOfRange (r.getD 0 ""))).isSome && (pf (trimPercent (r.getD 1 ""))).isSome

/-- Run-result test used to relate the record functions to their decidable
checks. -/
def isOkE {α : Type} : Except String α → Bool
  | Except.error _ => false
  | Except.ok _ => true

/- Section: Logistic-regression script: the gradient-descent trainer

logisticRegression(features, labels, numSteps, learningRate) initializes the
two weights at random (modelled by the parameter w0), then runs numSteps
sweeps over the rows.  For each row it computes
pred = logistic(featureRow[0] * weights[0] * featureRow[1] * weights[1]),
note the product rather than a sum of the two feature/weight products,
accumulates the squared prediction error into a per-sweep sumError that is
never read, and adds
learningRate * predError * pred * (1 - pred) * featureRow[j] to weight j.
The logistic function itself calls math.Exp, an external function, and is
abstracted as the parameter logisticF.  train calls the routine with
numSteps = 100 and learningRate = 0.3. -/

/-- One row of the inner loop: the updated weight pair and the squared
error contribution of the row. -/
def logisticRowUpdate (lr : ℚ) (logisticF : ℚ → ℚ) (w featureRow : ℚ × ℚ) (label : ℚ) :
    (ℚ × ℚ) × ℚ :=
  let pred := logisticF (featureRow.1 * w.1 * featureRow.2 * w.2)
  let predError := label - pred
  ((w.1 + lr * predError * pred * (1 - pred) * featureRow.1,
    w.2 + lr * predError * pred * (1 - pred) * featureRow.2),
   predError * predError)

/-- One sweep over all rows: the weights after the sweep and the accumulated
sumError of the sweep. -/
def logisticEpoch (lr : ℚ) (logisticF : ℚ → ℚ) (rows : List ((ℚ × ℚ) × ℚ)) (w : ℚ × ℚ) :
    (ℚ × ℚ) × ℚ :=
  rows.foldl
    (fun acc row =>
      let u := logisticRowUpdate lr logisticF acc.1 row.1 row.2
      (u.1, acc.2 + u.2))
    (w, 0)

/-- The outer loop of logisticRegression: numSteps sweeps, the sumError of a
sweep is dropped, and the final weights are returned unconditionally. -/
def logisticRegressionFn (logisticF : ℚ → ℚ) (rows : List ((ℚ × ℚ) × ℚ)) :
    ℕ → ℚ → (ℚ × ℚ) → ℚ × ℚ
  | 0, _, w => w
  | n + 1, lr, w => logisticRegressionFn logisticF rows n lr (logisticEpoch lr logisticF rows w).1

/-- The call made by train: logisticRegression(features, labels, 100, 0.3). -/
def trainLogisticWeights (logisticF : ℚ → ℚ) (rows : List ((ℚ × ℚ) × ℚ)) (w0 : ℚ × ℚ) :
    ℚ × ℚ :=
  logisticRegressionFn logisticF rows 100 (3 / 10) w0

/- Section: Logistic-regression script: test (tolerant evaluation)

The test function reads the test CSV record by record, tracking a line
counter that starts at 1 and skips the header when the counter is 1.  For
every other record it parses the observed label from field 1 and the score
from field 0; a parse failure logs a warning and skips the record with
continue, without aborting (and without advancing the line counter).  The
parsed pairs accumulate into the observed and predicted slices; the
prediction function with its hardcoded coefficients is abstracted as
predictF.  The accuracy is the count of matching pairs over the number of
observed values. -/

/-- The parse of one test record as the claim describes an acceptable row:
field 1 for the observation, then field 0 for the score. -/
def parseTestRowL (pf : String → Option ℚ) (r : Record) : Option (ℚ × ℚ) :=
  match pf (r.getD 1 "") with
  | none => none
  | some obs =>
    match pf (r.getD 0 "") with
    | none => none
    | some score => some (obs, score)

/-- The record loop of the logistic test: observed values, predicted values
and the count of logged skip warnings. -/
def testLoopLogistic (pf : String → Option ℚ) (predictF : ℚ → ℚ) :
    ℕ → List Record → List ℚ × List ℚ × ℕ
  | _, [] => ([], [], 0)
  | line, r :: rs =>
    if line = 1 then testLoopLogistic pf predictF (line + 1) rs
    else
      match pf (r.getD 1 "") with
      | none =>
        let t := testLoopLogistic pf predictF line rs
        (t.1, t.2.1, t.2.2 + 1)
      | some obs =>
        match pf (r.getD 0 "") with
        | none =>
          let t := testLoopLogistic pf predictF line rs
          (t.1, t.2.1, t.2.2 + 1)
        | some score =>
          let t := testLoopLogistic pf predictF (line + 1) rs
          (obs :: t.1, predictF score :: t.2.1, t.2.2)

/-- The logistic test loop started with line = 1 on the whole file. -/
def testLogistic (pf : String → Option ℚ) (predictF : ℚ → ℚ) (records : List Record) :
    List ℚ × List ℚ × ℕ :=
  testLoopLogistic pf predictF 1 records

/-- The count of observed values equal to their predictions. -/
def truePosNeg (observed predicted : List ℚ) : ℕ :=
  ((observed.zip predicted).filter (fun p => p.1 == p.2)).length

/-- The accuracy printed by the logistic test: truePosNeg over the number of
observed values. -/
def accuracyLogistic (observed predicted : List ℚ) : ℚ :=
  (truePosNeg observed predicted : ℚ) / (observed.length : ℚ)

/- Section: Naive-Bayes script: train

The train function of the naive-Bayes loan classifier chains five library
calls, each returning an error that is log.Fatal when non-nil: load the
training instances, fit the classifier (no error), load the templated test
instances, predict, build the confusion matrix, then print the accuracy. -/

/-- The naive-Bayes train chain over abstract library calls. -/
def trainNB (TD P CM : Type) (loadTraining : Except String TD)
    (loadTest : TD → Except String TD)
    (predictStep : TD → Except String P)
    (confusion : TD → P → Except String CM)
    (accuracy : CM → ℚ) : Except String ℚ :=
  match loadTraining with
  | Except.error e => Except.error e
  | Except.ok td =>
    match loadTest td with
    | Except.error e => Except.error e
    | Except.ok ts =>
      match predictStep ts with
      | Except.error e => Except.error e
      | Except.ok p =>
        match confusion ts p with
        | Except.error e => Except.error e
        | Except.ok cm => Except.ok (accuracy cm)

/- Section: Decision-tree and random-forest scripts: seeding

Go 1.22 seeds the math/rand default source and the golang.org/x/exp/rand
global source from per-run OS entropy at program start; RandGlobals models
the pair of generator states at the moment the seeding line runs.  The
decision-tree program imports math/rand and calls rand.Seed(44111342)
before building its tree; the random-forest program imports
golang.org/x/exp/rand and calls the Seed(44111342) of that package before
building its forest.  The golearn library calls that construct and
cross-validate the model are external; they draw their randomness from the
standard library math/rand default source, so the model passes the
math/rand state to the abstract library function cv together with the
loaded dataset. -/

/-- Per-run states of the two global generators at the seeding point. -/
structure RandGlobals where
  mathRandSt : ℕ
  expRandSt : ℕ

/-- math/rand Seed(c): overwrites the default-source state. -/
def mathRandSeed (seed : ℕ) (g : RandGlobals) : RandGlobals :=
  { g with mathRandSt := seed }

/-- golang.org/x/exp/rand Seed(c): overwrites the global state of that package. -/
def expRandSeed (seed : ℕ) (g : RandGlobals) : RandGlobals :=
  { g with expRandSt := seed }

/-- The decision-tree program: seed math/rand with 44111342, then run the
library on the dataset with the math/rand state. -/
def runDecisionTree (D O : Type) (cv : D → ℕ → O) (data : D) (g0 : RandGlobals) : O :=
  cv data (mathRandSeed 44111342 g0).mathRandSt

/-- The random-forest program: seed golang.org/x/exp/rand with 44111342,
then run the library on the dataset with the math/rand state, which the
program leaves at its per-run entropy value. -/
def runRandomForest (D O : Type) (cv : D → ℕ → O) (data : D) (g0 : RandGlobals) : O :=
  cv data (expRandSeed 44111342 g0).mathRandSt

end GoML

namespace GoML

/- Section: Theorems -/

theorem trainingNum_eq (n : ℕ) : trainingNum n = (4 * n + 4) / 5 := by
  unfold trainingNum trainingNumRaw testNum
  split <;> omega

theorem trainingNum_add_testNum (n : ℕ) : trainingNum n + testNum n = n := by
  unfold trainingNum trainingNumRaw testNum
  split <;> omega

theorem subsetRows_range {α : Type} (rows : List α) :
    ∀ t, t ≤ rows.length → subsetRows rows (List.range t) = rows.take t := by
  intro t
  induction t with
  | zero => intro _; simp [subsetRows]
  | succ t ih =>
    intro h
    have ht : t < rows.length := h
    have hstep : subsetRows rows (List.range (t + 1)) =
        subsetRows rows (List.range t) ++ subsetRows rows [t] := by
      unfold subsetRows
      rw [List.range_succ, List.filterMap_append]
    have hsingle : subsetRows rows [t] = (rows[t]?).toList := by
      unfold subsetRows
      simp only [List.get?_eq_getElem?]
      cases hg : rows[t]? <;> simp [hg]
    rw [hstep, ih (Nat.le_of_lt ht), List.take_succ, hsingle]

theorem subsetRows_range_map {α : Type} (rows : List α) (t s : ℕ)
    (h : t + s ≤ rows.length) :
    subsetRows rows ((List.range s).map (fun i => t + i)) = (rows.drop t).take s := by
  have h1 : subsetRows rows ((List.range s).map (fun i => t + i)) =
      subsetRows (rows.drop t) (List.range s) := by
    unfold subsetRows
    rw [List.filterMap_map]
    apply List.filterMap_congr
    intro i _
    simp [Function.comp, List.getElem?_drop]
  rw [h1]
  apply subsetRows_range
  rw [List.length_drop]
  omega

/-- C1: for every input dataset of N rows the splitter assigns
ceil(0.8 * N) rows to training and the remaining floor(N / 5) rows to test,
the two counts always sum to N, and in particular N = 10 gives 8 / 2 and
N = 11 gives 9 / 2. -/
theorem splitData_counts (n : ℕ) :
    ((trainingNum n : ℤ) = Int.ceil ((4 * (n : ℚ)) / 5)) ∧
    trainingNum n + testNum n = n ∧
    trainingNum 10 = 8 ∧ testNum 10 = 2 ∧ trainingNum 11 = 9 ∧ testNum 11 = 2 := by
  refine ⟨?_, trainingNum_add_testNum n, by decide, by decide, by decide, by decide⟩
  rw [trainingNum_eq]
  symm
  rw [Int.ceil_eq_iff]
  set k : ℕ := (4 * n + 4) / 5 with hk
  have hlo : 4 * n ≤ 5 * k := by omega
  have hhi : 5 * k < 4 * n + 5 := by omega
  have hloQ : (4 : ℚ) * n ≤ 5 * k := by exact_mod_cast hlo
  have hhiQ : (5 : ℚ) * k < 4 * n + 5 := by exact_mod_cast hhi
  constructor
  · push_cast
    linarith
  · push_cast
    linarith

theorem trainingIdx_mem (n i : ℕ) : i ∈ trainingIdx n ↔ i < trainingNum n := by
  unfold trainingIdx
  exact List.mem_range

theorem testIdx_mem (n j : ℕ) :
    j ∈ testIdx n ↔ trainingNum n ≤ j ∧ j < trainingNum n + testNum n := by
  unfold testIdx
  simp only [List.mem_map, List.mem_range]
  constructor
  · rintro ⟨i, hi, rfl⟩
    omega
  · intro h
    exact ⟨j - trainingNum n, by omega, by omega⟩

/-- C4: the splitter is deterministic and order-preserving: the training
frame is exactly the first trainingNum rows of the input in file order, the
test frame exactly the next testNum rows, the training indices are exactly
0 .. trainingNum - 1, the test indices exactly
trainingNum .. trainingNum + testNum - 1, and the two index lists are
disjoint; splitData is a pure function of the row list, so the same input
always yields the same pair of outputs. -/
theorem splitData_contiguous (α : Type) (rows : List α) :
    (splitData rows).1 = rows.take (trainingNum rows.length) ∧
    (splitData rows).2 =
      (rows.drop (trainingNum rows.length)).take (testNum rows.length) ∧
    (∀ i, i ∈ trainingIdx rows.length ↔ i < trainingNum rows.length) ∧
    (∀ j, j ∈ testIdx rows.length ↔
      trainingNum rows.length ≤ j ∧
        j < trainingNum rows.length + testNum rows.length) ∧
    trainingIdx rows.length ∩ testIdx rows.length = [] := by
  have hsum := trainingNum_add_testNum rows.length
  refine ⟨?_, ?_, trainingIdx_mem rows.length, testIdx_mem rows.length, ?_⟩
  · unfold splitData trainingIdx
    exact subsetRows_range rows (trainingNum rows.length) (by omega)
  · unfold splitData testIdx
    exact subsetRows_range_map rows (trainingNum rows.length) (testNum rows.length)
      (by omega)
  · rw [List.eq_nil_iff_forall_not_mem]
    intro i hmem
    rw [List.mem_inter_iff, trainingIdx_mem, testIdx_mem] at hmem
    omega

theorem trainLoopLR_shift (pf : String → Option ℚ) :
    ∀ (rs : List Record) (i : ℕ), i ≠ 0 → trainLoopLR pf i rs = trainRowsLR pf rs := by
  intro rs
  induction rs with
  | nil => intro i _; rfl
  | cons r rs ih =>
    intro i hi
    unfold trainLoopLR trainRowsLR
    rw [if_neg hi, ih (i + 1) (by omega)]

theorem testLoopLR_shift (pf : String → Option ℚ) (predict : ℚ → ℚ) (n : ℕ) :
    ∀ (rs : List Record) (i : ℕ), i ≠ 0 →
      testLoopLR pf predict n i rs = maeRowsLR pf predict n rs := by
  intro rs
  induction rs with
  | nil => intro i _; rfl
  | cons r rs ih =>
    intro i hi
    unfold testLoopLR maeRowsLR
    rw [if_neg hi, ih (i + 1) (by omega)]

/-- C10: in the linear-regression script the CSV record at index 0 is
excluded from model fitting and from the mean-absolute-error accumulation,
and every record of index at least 1 contributes exactly one training data
point in train and one absolute-difference term in test: the loops started
at index 0 on a header plus rest agree with the header-free row processors
applied to rest alone, whatever the header holds. -/
theorem linreg_header_excluded (pf : String → Option ℚ) (predict : ℚ → ℚ)
    (hdr : Record) (rest : List Record) :
    trainDataPointsLR pf (hdr :: rest) = trainRowsLR pf rest ∧
    maeLR pf predict (hdr :: rest) = maeRowsLR pf predict (rest.length + 1) rest := by
  constructor
  · unfold trainDataPointsLR trainLoopLR
    rw [if_pos rfl]
    exact trainLoopLR_shift pf rest 1 (by omega)
  · unfold maeLR
    rw [List.length_cons]
    unfold testLoopLR
    rw [if_pos rfl]
    exact testLoopLR_shift pf predict (rest.length + 1) rest 1 (by omega)

/-- C2 (code bug): on a test file holding the header plus one data row with
absolute error 1, the program adds mathAbs(2 - 1) / len(testData) where
len(testData) = 2 counts the header record, so it prints 0.5, while the mean
absolute error over the one test data row is 1. -/
theorem mae_divisor_counts_header :
    maeLR pfEx (fun _ => 1) [["TV", "Radio", "Newspaper", "Sales"], ["1", "0", "0", "2"]] =
      Except.ok (1 / 2) ∧
    maeClaimed pfEx (fun _ => 1) [["TV", "Radio", "Newspaper", "Sales"], ["1", "0", "0", "2"]] =
      Except.ok 1 ∧
    (1 / 2 : ℚ) ≠ 1 := by
  refine ⟨?_, ?_, by norm_num⟩
  · simp [maeLR, testLoopLR, testRecordLR, pfEx, mathAbs, List.getD]
    norm_num
  · simp [maeClaimed, testRowsLR, testRecordLR, pfEx, mathAbs, List.getD]
    norm_num

/-- C7: the normalized value the cleaner computes for a parsed FICO score s
is (s - 640) / 190 with the fixed bounds scoreMin = 640 and scoreMax = 830;
s = 640 maps to 0 and s = 830 maps to 1.  normalizeScore is the function
cleanRecordVals applies to every parsed score. -/
theorem fico_normalization (s : ℚ) :
    normalizeScore s = (s - 640) / 190 ∧ normalizeScore 640 = 0 ∧ normalizeScore 830 = 1 := by
  unfold normalizeScore scoreMin scoreMax
  norm_num

/-- C8: the label the cleaner emits for a parsed interest rate r is 1 when
r <= 12 and 0 when 12 < r, with the boundary inclusive: rate 12 yields
label 1 and rate 12.1 yields label 0. -/
theorem rate_label_boundary (r : ℚ) :
    (rateLabel r = 1 ↔ r ≤ 12) ∧ (rateLabel r = 0 ↔ 12 < r) ∧
    rateLabel 12 = 1 ∧ rateLabel (121 / 10) = 0 := by
  refine ⟨?_, ?_, by norm_num [rateLabel], by norm_num [rateLabel]⟩
  · unfold rateLabel
    split
    · rename_i h
      exact iff_of_true rfl h
    · rename_i h
      exact iff_of_false (by norm_num) h
  · unfold rateLabel
    split
    · rename_i h
      exact iff_of_false (by norm_num) (not_lt.mpr h)
    · rename_i h
      exact iff_of_true rfl (not_le.mp h)

theorem cleanRecordVals_isOk (pf : String → Option ℚ) (r : Record) :
    isOkE (cleanRecordVals pf r) = cleanRecOk pf r := by
  unfold cleanRecordVals cleanRecOk
  cases pf (minOfRange (r.getD 0 "")) <;>
    cases pf (trimPercent (r.getD 1 "")) <;> rfl

theorem trainRecordLR_isOk (pf : String → Option ℚ) (r : Record) :
    isOkE (trainRecordLR pf r) = recOkLR pf r := by
  unfold trainRecordLR recOkLR
  cases pf (r.getD 3 "") <;> cases pf (r.getD 0 "") <;> rfl

theorem testRecordLR_isOk (pf : String → Option ℚ) (r : Record) :
    isOkE (testRecordLR pf r) = recOkLR pf r := by
  unfold testRecordLR recOkLR
  cases pf (r.getD 3 "") <;> cases pf (r.getD 0 "") <;> rfl

theorem cleanRowsAll_exit (pf : String → Option ℚ) :
    ∀ rs : List Record,
      exitCode (cleanRowsAll pf rs) = if rs.all (cleanRecOk pf) then 0 else 1 := by
  intro rs
  induction rs with
  | nil => rfl
  | cons r rs ih =>
    unfold cleanRowsAll
    have hv := cleanRecordVals_isOk pf r
    cases hr : cleanRecordVals pf r with
    | error e =>
      rw [hr] at hv
      simp only [isOkE] at hv
      simp [exitCode, List.all_cons, ← hv]
    | ok v =>
      rw [hr] at hv
      simp only [isOkE] at hv
      cases hrc : cleanRowsAll pf rs with
      | error e2 =>
        rw [hrc] at ih
        by_cases hall : rs.all (cleanRecOk pf)
        · rw [if_pos hall] at ih
          exact absurd ih (by simp [exitCode])
        · simp [exitCode, List.all_cons, hall]
      | ok vs =>
        rw [hrc] at ih
        by_cases hall : rs.all (cleanRecOk pf)
        · simp [exitCode, List.all_cons, ← hv, hall]
        · rw [if_neg hall] at ih
          exact absurd ih (by simp [exitCode])

theorem cleanLoop_shift (pf : String → Option ℚ) :
    ∀ (rs : List Record) (i : ℕ), i ≠ 0 → cleanLoop pf i rs = cleanRowsAll pf rs := by
  intro rs
  induction rs with
  | nil => intro i _; rfl
  | cons r rs ih =>
    intro i hi
    unfold cleanLoop cleanRowsAll
    rw [if_neg hi, ih (i + 1) (by omega)]

theorem trainRowsLR_exit (pf : String → Option ℚ) :
    ∀ rs : List Record,
      exitCode (trainRowsLR pf rs) = if rs.all (recOkLR pf) then 0 else 1 := by
  intro rs
  induction rs with
  | nil => rfl
  | cons r rs ih =>
    unfold trainRowsLR
    have hv := trainRecordLR_isOk pf r
    cases hr : trainRecordLR pf r with
    | error e =>
      rw [hr] at hv
      simp only [isOkE] at hv
      simp [exitCode, List.all_cons, ← hv]
    | ok v =>
      rw [hr] at hv
      simp only [isOkE] at hv
      cases hrc : trainRowsLR pf rs with
      | error e2 =>
        rw [hrc] at ih
        by_cases hall : rs.all (recOkLR pf)
        · rw [if_pos hall] at ih
          exact absurd ih (by simp [exitCode])
        · simp [exitCode, List.all_cons, hall]
      | ok vs =>
        rw [hrc] at ih
        by_cases hall : rs.all (recOkLR pf)
        · simp [exitCode, List.all_cons, ← hv, hall]
        · rw [if_neg hall] at ih
          exact absurd ih (by simp [exitCode])

theorem maeRowsLR_exit (pf : String → Option ℚ) (predict : ℚ → ℚ) (n : ℕ) :
    ∀ rs : List Record,
      exitCode (maeRowsLR pf predict n rs) = if rs.all (recOkLR pf) then 0 else 1 := by
  intro rs
  induction rs with
  | nil => rfl
  | cons r rs ih =>
    unfold maeRowsLR
    have hv := testRecordLR_isOk pf r
    cases hr : testRecordLR pf r with
    | error e =>
      rw [hr] at hv
      simp only [isOkE] at hv
      simp [exitCode, List.all_cons, ← hv]
    | ok v =>
      rw [hr] at hv
      simp only [isOkE] at hv
      cases hrc : maeRowsLR pf predict n rs with
      | error e2 =>
        rw [hrc] at ih
        by_cases hall : rs.all (recOkLR pf)
        · rw [if_pos hall] at ih
          exact absurd ih (by simp [exitCode])
        · simp [exitCode, List.all_cons, hall]
      | ok acc =>
        rw [hrc] at ih
        by_cases hall : rs.all (recOkLR pf)
        · simp [exitCode, List.all_cons, ← hv, hall]
        · rw [if_neg hall] at ih
          exact absurd ih (by simp [exitCode])

/-- C5: a file-open or read failure in the profiling/cleaning, splitting or
training stage propagates as log.Fatal; the cleaning loop exits zero
exactly when every data record parses, and so does the linear-regression
training loop; the naive-Bayes chain propagates the first library error and
prints the accuracy on normal completion; and under an all-failing parse
the run dies at the first data record, whatever rows follow it, with exit
status 1 and no retry. -/
theorem fatal_error_policy :
    (∀ (pf : String → Option ℚ) (e : String),
      cleanStage pf (Except.error e) = Except.error e) ∧
    (∀ (pf : String → Option ℚ) (records : List Record),
      exitCode (cleanRows pf records) = 0 ↔
        (records.drop 1).all (cleanRecOk pf) = true) ∧
    (∀ e : String,
      splitStage (Except.error e : Except String (List Record)) = Except.error e) ∧
    (∀ rows : List Record, splitStage (Except.ok rows) = Except.ok (splitData rows)) ∧
    (∀ (pf : String → Option ℚ) (e : String),
      trainStageLR pf (Except.error e) = Except.error e) ∧
    (∀ (pf : String → Option ℚ) (records : List Record),
      exitCode (trainStageLR pf (Except.ok records)) = 0 ↔
        (records.drop 1).all (recOkLR pf) = true) ∧
    (∀ (TD P CM : Type) (e : String) (lt : TD → Except String TD)
        (pr : TD → Except String P) (cf : TD → P → Except String CM) (acc : CM → ℚ),
      trainNB TD P CM (Except.error e) lt pr cf acc = Except.error e) ∧
    (∀ (TD P CM : Type) (td ts : TD) (p : P) (cm : CM) (acc : CM → ℚ),
      trainNB TD P CM (Except.ok td) (fun _ => Except.ok ts) (fun _ => Except.ok p)
        (fun _ _ => Except.ok cm) acc = Except.ok (acc cm)) ∧
    (∀ (hdr bad : Record) (rest1 rest2 : List Record),
      cleanRows pfNone (hdr :: bad :: rest1) = cleanRows pfNone (hdr :: bad :: rest2) ∧
      exitCode (cleanRows pfNone (hdr :: bad :: rest1)) = 1) := by
  refine ⟨fun pf e => rfl, ?_, fun e => rfl, fun rows => rfl, fun pf e => rfl, ?_,
    fun TD P CM e lt pr cf acc => rfl, fun TD P CM td ts p cm acc => rfl,
    fun hdr bad rest1 rest2 => ⟨rfl, rfl⟩⟩
  · intro pf records
    cases records with
    | nil => simp [cleanRows, cleanLoop, exitCode]
    | cons hdr rest =>
      unfold cleanRows cleanLoop
      rw [if_pos rfl, cleanLoop_shift pf rest 1 (by omega), List.drop_one]
      rw [cleanRowsAll_exit pf rest]
      by_cases hall : rest.all (cleanRecOk pf) <;> simp [hall]
  · intro pf records
    cases records with
    | nil => simp [trainStageLR, trainDataPointsLR, trainLoopLR, exitCode]
    | cons hdr rest =>
      unfold trainStageLR trainDataPointsLR trainLoopLR
      rw [if_pos rfl, trainLoopLR_shift pf rest 1 (by omega), List.drop_one]
      rw [trainRowsLR_exit pf rest]
      by_cases hall : rest.all (recOkLR pf) <;> simp [hall]

theorem logisticRegressionFn_iterate (logisticF : ℚ → ℚ) (rows : List ((ℚ × ℚ) × ℚ)) :
    ∀ (n : ℕ) (lr : ℚ) (w : ℚ × ℚ),
      logisticRegressionFn logisticF rows n lr w =
        (fun v => (logisticEpoch lr logisticF rows v).1)^[n] w := by
  intro n
  induction n with
  | zero => intro lr w; rfl
  | succ n ih =>
    intro lr w
    rw [Function.iterate_succ_apply]
    exact ih lr (logisticEpoch lr logisticF rows w).1

/-- C6: the trainer called by the logistic-regression script performs
exactly 100 sweeps at learning rate 3/10 = 0.3, each sweep folding the
per-row update over all rows, for every choice of logistic function, data
and initial weights, with no convergence check; the per-row update adds
learningRate * (label - pred) * pred * (1 - pred) * feature to each weight,
where pred is the logistic function applied to the product
featureRow[0] * weights[0] * featureRow[1] * weights[1]. -/
theorem gradient_descent_structure :
    (∀ (logisticF : ℚ → ℚ) (rows : List ((ℚ × ℚ) × ℚ)) (w0 : ℚ × ℚ),
      trainLogisticWeights logisticF rows w0 =
        (fun v => (logisticEpoch (3 / 10) logisticF rows v).1)^[100] w0) ∧
    (∀ (logisticF : ℚ → ℚ) (rows : List ((ℚ × ℚ) × ℚ)) (n : ℕ) (lr : ℚ) (w : ℚ × ℚ),
      logisticRegressionFn logisticF rows n lr w =
        (fun v => (logisticEpoch lr logisticF rows v).1)^[n] w) ∧
    (∀ (lr : ℚ) (logisticF : ℚ → ℚ) (w featureRow : ℚ × ℚ) (label : ℚ),
      (logisticRowUpdate lr logisticF w featureRow label).1 =
        (w.1 + lr * (label - logisticF (featureRow.1 * w.1 * featureRow.2 * w.2)) *
            logisticF (featureRow.1 * w.1 * featureRow.2 * w.2) *
            (1 - logisticF (featureRow.1 * w.1 * featureRow.2 * w.2)) * featureRow.1,
         w.2 + lr * (label - logisticF (featureRow.1 * w.1 * featureRow.2 * w.2)) *
            logisticF (featureRow.1 * w.1 * featureRow.2 * w.2) *
            (1 - logisticF (featureRow.1 * w.1 * featureRow.2 * w.2)) * featureRow.2)) := by
  refine ⟨?_, ?_, ?_⟩
  · intro logisticF rows w0
    exact logisticRegressionFn_iterate logisticF rows 100 (3 / 10) w0
  · intro logisticF rows n lr w
    exact logisticRegressionFn_iterate logisticF rows n lr w
  · intro lr logisticF w featureRow label
    rfl

/-- C3 counterexample: the claim says a row with an unparsable field during
final evaluation is logged and skipped while the run continues, yet the
final evaluation of the linear-regression script aborts through log.Fatal
on such a row: with every field unparsable, the file of a header plus one
data row exits with status 1. -/
theorem linreg_eval_aborts_on_bad_row :
    maeLR pfNone (fun _ => 0) [[], ["x"]] = Except.error "ParseFloat Sales" ∧
    exitCode (maeLR pfNone (fun _ => 0) [[], ["x"]]) = 1 := by
  exact ⟨rfl, rfl⟩

theorem testLoopLogistic_spec (pf : String → Option ℚ) (predictF : ℚ → ℚ) :
    ∀ (rows : List Record) (line : ℕ), 2 ≤ line →
      testLoopLogistic pf predictF line rows =
        ((rows.filterMap (parseTestRowL pf)).map Prod.fst,
         (rows.filterMap (parseTestRowL pf)).map (fun q => predictF q.2),
         rows.countP (fun r => (parseTestRowL pf r).isNone)) := by
  intro rows
  induction rows with
  | nil => intro line _; simp [testLoopLogistic]
  | cons r rs ih =>
    intro line hline
    unfold testLoopLogistic
    rw [if_neg (by omega)]
    cases hp : pf (r.getD 1 "") with
    | none =>
      have hrow : parseTestRowL pf r = none := by
        unfold parseTestRowL
        rw [hp]
      rw [ih line hline]
      simp [List.filterMap_cons, List.countP_cons, hrow]
    | some obs =>
      cases hq : pf (r.getD 0 "") with
      | none =>
        have hrow : parseTestRowL pf r = none := by
          unfold parseTestRowL
          rw [hp, hq]
        rw [ih line hline]
        simp [List.filterMap_cons, List.countP_cons, hrow]
      | some score =>
        have hrow : parseTestRowL pf r = some (obs, score) := by
          unfold parseTestRowL
          rw [hp, hq]
        rw [ih (line + 1) (by omega)]
        simp [List.filterMap_cons, List.countP_cons, hrow]

/-- C3 amended: in the logistic-regression evaluator a record with an
unparsable field is counted as one logged warning and excluded from the
observed and predicted slices while the loop continues over the remaining
records, and that evaluator is the only tolerant spot: the final
evaluation of the linear-regression script exits nonzero exactly when some
data record fails to parse. -/
theorem logistic_eval_tolerant_skip :
    (∀ (pf : String → Option ℚ) (predictF : ℚ → ℚ) (hdr : Record) (rows : List Record),
      testLogistic pf predictF (hdr :: rows) =
        ((rows.filterMap (parseTestRowL pf)).map Prod.fst,
         (rows.filterMap (parseTestRowL pf)).map (fun q => predictF q.2),
         rows.countP (fun r => (parseTestRowL pf r).isNone))) ∧
    (∀ (pf : String → Option ℚ) (predictF : ℚ → ℚ) (records : List Record),
      exitCode (maeLR pf predictF records) = 1 ↔
        (records.drop 1).all (recOkLR pf) = false) := by
  constructor
  · intro pf predictF hdr rows
    unfold testLogistic testLoopLogistic
    rw [if_pos rfl]
    exact testLoopLogistic_spec pf predictF rows 2 (by omega)
  · intro pf predictF records
    cases records with
    | nil => simp [maeLR, testLoopLR, exitCode]
    | cons hdr rest =>
      unfold maeLR
      rw [List.length_cons]
      unfold testLoopLR
      rw [if_pos rfl, testLoopLR_shift pf predictF (rest.length + 1) rest 1 (by omega)]
      rw [List.drop_one, List.tail_cons]
      rw [maeRowsLR_exit pf predictF (rest.length + 1) rest]
      by_cases hall : rest.all (recOkLR pf) <;> simp [hall]

/-- C9 counterexample: with the golearn library abstracted as a function of
the dataset and the math/rand state it draws from, two runs of the
random-forest program on the same dataset but different per-run entropy
disagree, because the program seeds the golang.org/x/exp/rand global, not
the math/rand source the library uses. -/
theorem randomforest_not_reproducible :
    runRandomForest ℕ ℕ (fun _ s => s) 0 (RandGlobals.mk 0 5) ≠
      runRandomForest ℕ ℕ (fun _ s => s) 0 (RandGlobals.mk 1 5) := by
  decide

/-- C9 amended: both classification programs call rand.Seed(44111342)
before building their model, but only the decision-tree program seeds the
math/rand source the golearn library draws from, so its printed metrics
are the same across runs whatever the per-run entropy; the output of the
random-forest program is unchanged by the x/exp/rand entropy it does seed,
but depends on the unseeded math/rand state. -/
theorem seeded_program_determinism :
    (∀ (D O : Type) (cv : D → ℕ → O) (d : D) (g1 g2 : RandGlobals),
      runDecisionTree D O cv d g1 = runDecisionTree D O cv d g2) ∧
    (∀ (D O : Type) (cv : D → ℕ → O) (d : D) (m e1 e2 : ℕ),
      runRandomForest D O cv d (RandGlobals.mk m e1) =
        runRandomForest D O cv d (RandGlobals.mk m e2)) := by
  exact ⟨fun D O cv d g1 g2 => rfl, fun D O cv d m e1 e2 => rfl⟩

end GoML
